import Mathlib

/-!
# GSF TimeSeriesPlatformLibrary: transport types

A shallow embedding of `Transport/TransportTypes.cpp` (exceptions, signal references, signal
kinds, measurement keys, signal-type / engineering-unit / protocol-type classification) and
of the functions that `Common/Convert.h`, `Transport/DataPublisher.h` and
`Transport/SubscriberConnection.h` declare for timestamps, Guids and cipher keys, together
with the properties the specification states about them.

Conventions of the embedding:

* a C++ `std::string` is the list of its `char` elements (`List Char`);
* a function that can throw returns `Except`;
* out-parameters (`source`, `id`, `unixSOC`, `milliseconds`) become the components of the
  returned value;
* a member that changes its object returns the new object.
-/

namespace GSF

/-! ## Character classes of the C locale -/

/-- The `isspace` class of the C locale: the space (32) and `\t`, `\n`, `\v`, `\f`, `\r`
(9 to 13). -/
def isSpace (c : Char) : Bool :=
  decide (c.toNat = 32) || (decide (9 ≤ c.toNat) && decide (c.toNat ≤ 13))

/-- The `isdigit` class: `0` .. `9`. -/
def isDigit (c : Char) : Bool :=
  decide (48 ≤ c.toNat) && decide (c.toNat ≤ 57)

/-- The C `toupper` of the C locale: `a` .. `z` are moved to `A` .. `Z`, every other
character is returned as it is. -/
def toupper (c : Char) : Char :=
  if 97 ≤ c.toNat ∧ c.toNat ≤ 122 then Char.ofNat (c.toNat - 32) else c

/-! ## Signal kinds (`SignalKind`, `SignalKindAcronym`, `ParseSignalKind`) -/

/-- The `SignalKind` enumeration, in declaration order. -/
inductive SignalKind
  | Angle
  | Magnitude
  | Frequency
  | DfDt
  | Status
  | Digital
  | Analog
  | Calculation
  | Statistic
  | Alarm
  | Quality
  | Unknown
  deriving DecidableEq, Repr

/-- The table `SignalKindAcronym[]`, indexed by the kind. -/
def SignalKindAcronym : SignalKind → List Char
  | .Angle => ['P', 'A']
  | .Magnitude => ['P', 'M']
  | .Frequency => ['F', 'Q']
  | .DfDt => ['D', 'F']
  | .Status => ['S', 'F']
  | .Digital => ['D', 'V']
  | .Analog => ['A', 'V']
  | .Calculation => ['C', 'V']
  | .Statistic => ['S', 'T']
  | .Alarm => ['A', 'L']
  | .Quality => ['Q', 'F']
  | .Unknown => ['?', '?']

/-- The function `ParseSignalKind`: a chain of exact string comparisons. -/
def ParseSignalKind (acronym : List Char) : SignalKind :=
  if acronym = ['P', 'A'] then SignalKind.Angle
  else if acronym = ['P', 'M'] then SignalKind.Magnitude
  else if acronym = ['F', 'Q'] then SignalKind.Frequency
  else if acronym = ['D', 'F'] then SignalKind.DfDt
  else if acronym = ['S', 'F'] then SignalKind.Status
  else if acronym = ['D', 'V'] then SignalKind.Digital
  else if acronym = ['A', 'V'] then SignalKind.Analog
  else if acronym = ['C', 'V'] then SignalKind.Calculation
  else if acronym = ['S', 'T'] then SignalKind.Statistic
  else if acronym = ['A', 'L'] then SignalKind.Alarm
  else if acronym = ['Q', 'F'] then SignalKind.Quality
  else SignalKind.Unknown

/-! ## String helpers -/

/-- Modelled from the spec: the helper `ToUpper` of `Common/CommonTypes`, which is not part
of the sources at hand. It gives the "uppercase acronym" of a string: every character is
replaced by its `toupper`. -/
def ToUpper (value : List Char) : List Char :=
  value.map toupper

/-- Modelled from the spec: the helper `Trim` of `Common/CommonTypes`, which is not part of
the sources at hand. It removes the white space at both ends of a string. -/
def Trim (value : List Char) : List Char :=
  ((value.dropWhile isSpace).reverse.dropWhile isSpace).reverse

/-- Modelled from the spec: the helper `Split` of `Common/CommonTypes`, which is not part of
the sources at hand. It cuts `value` at every delimiter character and returns all the parts
in order (so `source:id` has the two parts `source` and `id`, and a string without a
delimiter is its own single part); for the one-character delimiter `":"` used by
`ParseMeasurementKey`, cutting at the delimiter string and at any of its characters are the
same thing. -/
def Split (value : List Char) (delimiterValue : List Char) : List (List Char) :=
  match value with
  | [] => [[]]
  | c :: rest =>
    if c ∈ delimiterValue then [] :: Split rest delimiterValue
    else
      match Split rest delimiterValue with
      | part :: parts => (c :: part) :: parts
      | [] => [[c]]

/-- Modelled from the spec: the helper `IsEqual` of `Common/CommonTypes`, which is not part
of the sources at hand: the signal type "equals" the given text. -/
def IsEqual (left right : List Char) : Bool :=
  decide (left = right)

/-- Modelled from the spec: the helper `StartsWith` of `Common/CommonTypes`, which is not
part of the sources at hand: the name "begins with" the given text. -/
def StartsWith (value findValue : List Char) : Bool :=
  decide (value.take findValue.length = findValue)

/-- Modelled from the spec: the helper `EndsWith` of `Common/CommonTypes`, which is not part
of the sources at hand: the signal type "ends with" the given text. -/
def EndsWith (value findValue : List Char) : Bool :=
  decide (value.drop (value.length - findValue.length) = findValue)

/-- Modelled from the spec: the constant `Empty::String` of `Common/CommonTypes`, which is
not part of the sources at hand: the empty string. -/
def Empty.String : List Char := []

/-- Modelled from the spec: the constant `UInt32::MaxValue` of `Common/CommonTypes`, which
is not part of the sources at hand: the largest unsigned 32-bit value. -/
def UInt32.MaxValue : Nat := 4294967295

/-- The member `std::string::find_last_of(char)`: the position of the last occurrence of
`c`, or `none` for `npos`. -/
def find_last_of : List Char → Char → Option Nat
  | [], _ => none
  | x :: xs, c =>
    match find_last_of xs c with
    | some i => some (i + 1)
    | none => if x = c then some 0 else none

/-! ## Numeric conversions of the C++ standard library -/

deriving instance DecidableEq for Except

/-- The two exceptions of `std::stoi` / `std::stoul`. -/
inductive StoError
  | invalid_argument
  | out_of_range
  deriving DecidableEq, Repr

/-- The value of a run of decimal digits. -/
def digitsValue (ds : List Char) : Nat :=
  ds.foldl (fun acc c => 10 * acc + (c.toNat - 48)) 0

/-- The scanner shared by `strtol` and `strtoul` in base 10: leading white space is
skipped, one sign is accepted, and the longest run of digits is taken; whatever follows is
ignored. The result is the sign (`true` for a minus) and the digits. -/
def scanInteger (str : List Char) : Bool × List Char :=
  let body := str.dropWhile isSpace
  if body.head? = some '-' then (true, body.tail.takeWhile isDigit)
  else if body.head? = some '+' then (false, body.tail.takeWhile isDigit)
  else (false, body.takeWhile isDigit)

/-- The function `std::stoi(str)`: `invalid_argument` when no digit is found, `out_of_range`
when the value does not fit in a 32-bit `int`. -/
def stoi (str : List Char) : Except StoError Int :=
  let scanned := scanInteger str
  if scanned.2 = [] then Except.error StoError.invalid_argument
  else
    let v : Int := if scanned.1 then -(digitsValue scanned.2 : Int) else (digitsValue scanned.2 : Int)
    if v < -2147483648 ∨ 2147483647 < v then Except.error StoError.out_of_range
    else Except.ok v

/-- The function `std::stoul(str)`, for a platform whose `unsigned long` has the maximum
`ULONG_MAX`: `invalid_argument` when no digit is found, `out_of_range` when the digits
exceed `ULONG_MAX`; a minus sign negates the value in unsigned arithmetic. -/
def stoul (ULONG_MAX : Nat) (str : List Char) : Except StoError Nat :=
  let scanned := scanInteger str
  if scanned.2 = [] then Except.error StoError.invalid_argument
  else if ULONG_MAX < digitsValue scanned.2 then Except.error StoError.out_of_range
  else if scanned.1 then Except.ok ((ULONG_MAX + 1 - digitsValue scanned.2) % (ULONG_MAX + 1))
  else Except.ok (digitsValue scanned.2)

/-- The digits of `n`, most significant first, pushed in front of `acc`. -/
def natToStringAux : Nat → Nat → List Char → List Char
  | 0, _, acc => acc
  | fuel + 1, n, acc =>
    if n < 10 then Char.ofNat (48 + n) :: acc
    else natToStringAux fuel (n / 10) (Char.ofNat (48 + n % 10) :: acc)

/-- The plain decimal text of a natural number: no sign, no leading zero. -/
def natToString (n : Nat) : List Char :=
  natToStringAux (n + 1) n []

/-- What `stream << i` writes for an `int`. -/
def intToString (i : Int) : List Char :=
  if i < 0 then '-' :: natToString i.natAbs else natToString i.toNat

/-! ## Signal references -/

/-- The fields of `SignalReference` that the string constructor computes from its argument
(`SignalID` is set to a fresh `Guid()` whatever the argument is). -/
structure SignalReference where
  Acronym : List Char
  Index : Int
  Kind : SignalKind
  deriving DecidableEq, Repr

/-- The constructor `SignalReference::SignalReference(const string& signal)`; the exception
of `stoi` leaves the constructor. -/
def SignalReference.construct (signal : List Char) : Except StoError SignalReference :=
  match find_last_of signal '-' with
  | none =>
    Except.ok { Acronym := ToUpper (Trim signal), Index := 0, Kind := SignalKind.Unknown }
  | some splitIndex =>
    let signalType := ToUpper (Trim (signal.drop (splitIndex + 1)))
    let Acronym := ToUpper (Trim (signal.take splitIndex))
    if signalType.length > 2 then
      let Kind := ParseSignalKind (signalType.take 2)
      if Kind ≠ SignalKind.Unknown then
        match stoi (signalType.drop 2) with
        | Except.ok i => Except.ok { Acronym := Acronym, Index := i, Kind := Kind }
        | Except.error e => Except.error e
      else
        Except.ok { Acronym := Acronym, Index := 0, Kind := Kind }
    else
      Except.ok { Acronym := Acronym, Index := 0, Kind := ParseSignalKind signalType }

/-- The text written by `operator << (ostream&, const SignalReference&)`. -/
def SignalReference.ToString (reference : SignalReference) : List Char :=
  if reference.Index > 0 then
    reference.Acronym ++ ['-'] ++ SignalKindAcronym reference.Kind ++ intToString reference.Index
  else
    reference.Acronym ++ ['-'] ++ SignalKindAcronym reference.Kind

/-! ## Classification tables -/

/-- The function `GetSignalTypeAcronym`. -/
def GetSignalTypeAcronym (kind : SignalKind) (phasorType : Char) : List Char :=
  match kind with
  | .Angle => if toupper phasorType = 'V' then ['V', 'P', 'H', 'A'] else ['I', 'P', 'H', 'A']
  | .Magnitude => if toupper phasorType = 'V' then ['V', 'P', 'H', 'M'] else ['I', 'P', 'H', 'M']
  | .Frequency => ['F', 'R', 'E', 'Q']
  | .DfDt => ['D', 'F', 'D', 'T']
  | .Status => ['F', 'L', 'A', 'G']
  | .Digital => ['D', 'I', 'G', 'I']
  | .Analog => ['A', 'L', 'O', 'G']
  | .Calculation => ['C', 'A', 'L', 'C']
  | .Statistic => ['S', 'T', 'A', 'T']
  | .Alarm => ['A', 'L', 'R', 'M']
  | .Quality => ['Q', 'U', 'A', 'L']
  | .Unknown => ['N', 'U', 'L', 'L']

/-- The function `GetEngineeringUnits`. -/
def GetEngineeringUnits (signalType : List Char) : List Char :=
  if IsEqual signalType ['I', 'P', 'H', 'M'] then ['A', 'm', 'p', 's']
  else if IsEqual signalType ['V', 'P', 'H', 'M'] then ['V', 'o', 'l', 't', 's']
  else if IsEqual signalType ['F', 'R', 'E', 'Q'] then ['H', 'z']
  else if EndsWith signalType ['P', 'H', 'A'] then ['D', 'e', 'g', 'r', 'e', 'e', 's']
  else Empty.String

/-- The function `GetProtocolType`. -/
def GetProtocolType (protocolName : List Char) : List Char :=
  if StartsWith protocolName ['G', 'a', 't', 'e', 'w', 'a', 'y'] ||
      StartsWith protocolName ['M', 'o', 'd', 'b', 'u', 's'] ||
      StartsWith protocolName ['D', 'N', 'P'] then
    ['M', 'e', 'a', 's', 'u', 'r', 'e', 'm', 'e', 'n', 't']
  else
    ['F', 'r', 'a', 'm', 'e']

/-! ## Measurement keys -/

/-- The function `ParseMeasurementKey`, returning the out-parameters `(source, id)`;
`ULONG_MAX` is the largest `unsigned long` of the platform and `uint32_t(...)` keeps the low
32 bits. The exception of `stoul` leaves the function. -/
def ParseMeasurementKey (ULONG_MAX : Nat) (key : List Char) :
    Except StoError (List Char × Nat) :=
  let parts := Split key [':']
  if parts.length = 2 then
    match stoul ULONG_MAX (parts.getD 1 []) with
    | Except.ok n => Except.ok (parts.getD 0 [], n % 4294967296)
    | Except.error e => Except.error e
  else
    Except.ok (parts.getD 0 [], UInt32.MaxValue)


/-! ## Exceptions -/

/-- The C string that starts at the first element of a character buffer: the characters
in front of the first NUL. -/
def cString (data : List Char) : List Char :=
  data.takeWhile (fun c => c != Char.ofNat 0)

/-- The class `SubscriberException`: it owns its message. -/
structure SubscriberException where
  m_message : List Char
  deriving DecidableEq, Repr

/-- The constructor `SubscriberException::SubscriberException(string message)`: the message
is moved into `m_message`. -/
def SubscriberException.construct (message : List Char) : SubscriberException :=
  { m_message := message }

/-- The member `SubscriberException::what() const`: the address of `m_message[0]`, read by
the caller as a C string; the member is `const`, it reads `m_message` and changes nothing. -/
def SubscriberException.what (e : SubscriberException) : List Char :=
  cString e.m_message

/-- The class `PublisherException`: it owns its message. -/
structure PublisherException where
  m_message : List Char
  deriving DecidableEq, Repr

/-- The constructor `PublisherException::PublisherException(string message)`. -/
def PublisherException.construct (message : List Char) : PublisherException :=
  { m_message := message }

/-- The member `PublisherException::what() const`. -/
def PublisherException.what (e : PublisherException) : List Char :=
  cString e.m_message

/-! ## Timestamps -/

/-- Modelled from the spec: the function `ToUnixTime`, which `Common/Convert.h` declares and
whose body is not part of the sources at hand. "Unix-SOC conversion subtracts
621355968000000000 and divides by 10,000,000; milliseconds are the remainder / 10,000."
The divisions are those of C++ on `int64_t` (towards zero); the out-parameters `unixSOC` and
`milliseconds` are the components of the result. -/
def ToUnixTime (ticks : Int) : Int × Int :=
  let sinceEpoch := ticks - 621355968000000000
  (Int.tdiv sinceEpoch 10000000, Int.tdiv (Int.tmod sinceEpoch 10000000) 10000)

/-- The integer fields of `Measurement` (`Value`, `Adder` and `Multiplier` are `float64_t`
and `SignalID` is a `Guid`; no function embedded here reads them). -/
structure Measurement where
  ID : Nat
  Timestamp : Int
  Flags : Nat
  deriving DecidableEq, Repr

/-- The constructor `Measurement::Measurement()`, on the integer fields. -/
def Measurement.construct : Measurement :=
  { ID := 0, Timestamp := 0, Flags := 0 }

/-- The member `Measurement::GetUnixTime`: it hands `Timestamp` to `ToUnixTime`. -/
def Measurement.GetUnixTime (m : Measurement) : Int × Int :=
  ToUnixTime m.Timestamp

/-! ## Guids -/

/-- A `Guid`: 16 bytes, addressed by their position. -/
abbrev Guid := Fin 16 → Fin 256

/-- The index list `{3,2,1,0,5,4,7,6,8..15}` of the endianness swap. -/
def swapGuidOrder : List (Fin 16) :=
  [3, 2, 1, 0, 5, 4, 7, 6, 8, 9, 10, 11, 12, 13, 14, 15]

/-- Modelled from the spec: the function `SwapGuidEndianness`, which `Common/Convert.h`
declares and whose body is not part of the sources at hand: the "endianness-swap primitive
that reorders bytes `{3,2,1,0,5,4,7,6,8..15}` for .NET / GEP conversion". The spec names
this one reordering for both values of `useGEPEncoding`, so the flag does not change it
here. Byte `i` of the result is byte `swapGuidOrder[i]` of the argument. -/
def SwapGuidEndianness (value : Guid) (_useGEPEncoding : Bool) : Guid :=
  fun i => value (swapGuidOrder.getD i.val i)

/-! ## Publisher and subscriber connection -/

/-- The configuration members of `DataPublisher` (`DataPublisher.h`). -/
structure DataPublisher where
  m_allowMetadataRefresh : Bool
  m_allowNaNValueFilter : Bool
  m_forceNaNValueFilter : Bool
  m_cipherKeyRotationPeriod : Nat
  deriving DecidableEq, Repr

/-- Modelled from the spec: the member `DataPublisher::GetCipherKeyRotationPeriod`, which
`DataPublisher.h` declares and whose body is not part of the sources at hand: it returns the
stored period. -/
def DataPublisher.GetCipherKeyRotationPeriod (publisher : DataPublisher) : Nat :=
  publisher.m_cipherKeyRotationPeriod

/-- Modelled from the spec: the member `DataPublisher::SetCipherKeyRotationPeriod`, which
`DataPublisher.h` declares and whose body is not part of the sources at hand: "Rotation
period is clamped to `[1000, 86_400_000]` ms". -/
def DataPublisher.SetCipherKeyRotationPeriod (publisher : DataPublisher) (period : Nat) :
    DataPublisher :=
  { publisher with m_cipherKeyRotationPeriod := max 1000 (min period 86400000) }

/-- The cipher state of a `SubscriberConnection`: the members `m_keys[2]` and `m_ivs[2]` of
`SubscriberConnection.h`, and, modelled from the spec, the `cipherIndex: 0|1` that "marks
current" (the header declares no member for it). -/
structure SubscriberConnection where
  m_keys : Fin 2 → List (Fin 256)
  m_ivs : Fin 2 → List (Fin 256)
  cipherIndex : Fin 2

/-- Modelled from the spec: the member `SubscriberConnection::HandleRotateCipherKeys`,
which `SubscriberConnection.h` declares and whose body is not part of the sources at hand:
"rotation replaces the inactive slot then flips the index". The freshly generated random
material is the pair of arguments `key`, `iv`. -/
def SubscriberConnection.HandleRotateCipherKeys (connection : SubscriberConnection)
    (key iv : List (Fin 256)) : SubscriberConnection :=
  let inactive : Fin 2 := 1 - connection.cipherIndex
  { m_keys := fun slot => if slot = inactive then key else connection.m_keys slot,
    m_ivs := fun slot => if slot = inactive then iv else connection.m_ivs slot,
    cipherIndex := inactive }

/-! ## The failure condition of the signal-reference constructor, in the specification's words -/

/-- The text after the last dash of a string: its longest suffix without a dash. -/
def textAfterLastDash (s : List Char) : List Char :=
  (s.reverse.takeWhile (fun c => c != '-')).reverse

/-- The trimmed, upper-cased text after the last dash of a string. -/
def signalTypeText (s : List Char) : List Char :=
  ToUpper (Trim (textAfterLastDash s))

/-- The text "starts with a decimal integer that fits in int": its leading run of decimal
digits is not empty and its value is at most `INT_MAX`. -/
def startsWithDecimalInt (text : List Char) : Bool :=
  decide (text.takeWhile isDigit ≠ [] ∧ digitsValue (text.takeWhile isDigit) ≤ 2147483647)

/-- The text behind its leading white space and behind one plus sign, if there is one. -/
def skipSpacesAndPlus (text : List Char) : List Char :=
  if (text.dropWhile isSpace).head? = some '+' then (text.dropWhile isSpace).tail
  else text.dropWhile isSpace

/-! ## Facts about characters -/

theorem isDigit_iff (c : Char) : isDigit c = true ↔ 48 ≤ c.toNat ∧ c.toNat ≤ 57 := by
  simp [isDigit]

theorem isSpace_iff (c : Char) :
    isSpace c = true ↔ c.toNat = 32 ∨ (9 ≤ c.toNat ∧ c.toNat ≤ 13) := by
  simp [isSpace]

theorem isSpace_of_isDigit {c : Char} (h : isDigit c = true) : isSpace c = false := by
  rw [← Bool.not_eq_true, isSpace_iff]
  rw [isDigit_iff] at h
  omega

theorem toupper_of_isDigit {c : Char} (h : isDigit c = true) : toupper c = c := by
  rw [isDigit_iff] at h
  unfold toupper
  rw [if_neg (by omega)]

theorem ne_of_isDigit {c x : Char} (h : isDigit c = true) (hx : isDigit x = false) :
    c ≠ x := by
  rintro rfl
  rw [h] at hx
  cases hx

theorem toNat_toupper_of_lower {c : Char} (h : 97 ≤ c.toNat ∧ c.toNat ≤ 122) :
    (Char.ofNat (c.toNat - 32)).toNat = c.toNat - 32 := by
  obtain ⟨n, hn⟩ : ∃ n, c.toNat = n := ⟨_, rfl⟩
  rw [hn] at h ⊢
  obtain ⟨h1, h2⟩ := h
  interval_cases n <;> rfl

theorem toNat_toupper (c : Char) :
    (toupper c).toNat = if 97 ≤ c.toNat ∧ c.toNat ≤ 122 then c.toNat - 32 else c.toNat := by
  unfold toupper
  by_cases h : 97 ≤ c.toNat ∧ c.toNat ≤ 122
  · rw [if_pos h, if_pos h, toNat_toupper_of_lower h]
  · rw [if_neg h, if_neg h]

theorem isSpace_toupper (c : Char) : isSpace (toupper c) = isSpace c := by
  rw [Bool.eq_iff_iff, isSpace_iff, isSpace_iff, toNat_toupper]
  split <;> omega

theorem toupper_eq_dash_iff (c : Char) : toupper c = '-' ↔ c = '-' := by
  constructor
  · intro h
    have h1 : (toupper c).toNat = 45 := by rw [h]; rfl
    rw [toNat_toupper] at h1
    have h2 : c.toNat = 45 := by
      split at h1 <;> omega
    rw [← Char.ofNat_toNat c, h2]
  · rintro rfl
    rfl

theorem digit_ofNat {d : Nat} (h : d < 10) :
    isDigit (Char.ofNat (48 + d)) = true ∧ (Char.ofNat (48 + d)).toNat - 48 = d := by
  interval_cases d <;> exact ⟨rfl, rfl⟩

/-! ## Facts about the string helpers -/

theorem StartsWith_iff (value findValue : List Char) :
    StartsWith value findValue = true ↔ ∃ rest, value = findValue ++ rest := by
  unfold StartsWith
  rw [decide_eq_true_iff]
  constructor
  · intro h
    refine ⟨value.drop findValue.length, ?_⟩
    conv_lhs => rw [← List.take_append_drop findValue.length value]
    rw [h]
  · rintro ⟨rest, rfl⟩
    simp

theorem EndsWith_iff (value findValue : List Char) :
    EndsWith value findValue = true ↔ ∃ front, value = front ++ findValue := by
  unfold EndsWith
  rw [decide_eq_true_iff]
  constructor
  · intro h
    refine ⟨value.take (value.length - findValue.length), ?_⟩
    conv_lhs => rw [← List.take_append_drop (value.length - findValue.length) value]
    rw [h]
  · rintro ⟨front, rfl⟩
    simp

theorem Trim_eq_self {value : List Char} (h : ∀ c ∈ value, isSpace c = false) :
    Trim value = value := by
  have h1 : value.dropWhile isSpace = value := by
    cases value with
    | nil => rfl
    | cons x xs => rw [List.dropWhile_cons, h x (List.mem_cons_self x xs)]; rfl
  have h2 : value.reverse.dropWhile isSpace = value.reverse := by
    cases hr : value.reverse with
    | nil => rfl
    | cons x xs =>
      have hx : x ∈ value := by
        rw [← List.mem_reverse, hr]
        exact List.mem_cons_self x xs
      rw [List.dropWhile_cons, h x hx]
      rfl
  unfold Trim
  rw [h1, h2, List.reverse_reverse]

theorem find_last_of_eq_none {s : List Char} {c : Char} (h : c ∉ s) :
    find_last_of s c = none := by
  induction s with
  | nil => rfl
  | cons x xs ih =>
    rw [List.mem_cons, not_or] at h
    rw [find_last_of, ih h.2]
    simp only
    rw [if_neg (fun hx => h.1 hx.symm)]

theorem find_last_of_append (front : List Char) {back : List Char} {c : Char}
    (h : c ∉ back) : find_last_of (front ++ c :: back) c = some front.length := by
  induction front with
  | nil =>
    rw [List.nil_append, find_last_of, find_last_of_eq_none h]
    simp
  | cons x xs ih =>
    rw [List.cons_append, find_last_of, ih]
    simp

/-- The position found by `find_last_of` splits the string at a character `c` that does
not occur again behind it. -/
theorem find_last_of_eq_some {s : List Char} {c : Char} {i : Nat}
    (h : find_last_of s c = some i) :
    s = s.take i ++ c :: s.drop (i + 1) ∧ c ∉ s.drop (i + 1) := by
  induction s generalizing i with
  | nil => simp [find_last_of] at h
  | cons x xs ih =>
    rw [find_last_of] at h
    cases hxs : find_last_of xs c with
    | some j =>
      rw [hxs] at h
      simp only [Option.some.injEq] at h
      subst h
      obtain ⟨h1, h2⟩ := ih hxs
      refine ⟨?_, by simpa using h2⟩
      simp only [List.take_succ_cons, List.drop_succ_cons, List.cons_append]
      rw [← h1]
    | none =>
      rw [hxs] at h
      simp only at h
      by_cases hx : x = c
      · rw [if_pos hx] at h
        simp only [Option.some.injEq] at h
        subst h
        subst hx
        have hnot : x ∉ xs := by
          intro hmem
          have : ∀ (l : List Char), x ∈ l → find_last_of l x ≠ none := by
            intro l hl
            induction l with
            | nil => simp at hl
            | cons y ys ihy =>
              rw [find_last_of]
              cases hys : find_last_of ys x with
              | some k => simp
              | none =>
                rcases List.mem_cons.1 hl with hxy | hxy
                · simp [hxy]
                · exact absurd hys (ihy hxy)
          exact this xs hmem hxs
        simpa using hnot
      · rw [if_neg hx] at h
        simp at h

theorem Split_of_not_mem {value delimiterValue : List Char}
    (h : ∀ c ∈ value, c ∉ delimiterValue) : Split value delimiterValue = [value] := by
  induction value with
  | nil => rfl
  | cons x xs ih =>
    rw [Split, if_neg (h x (List.mem_cons_self x xs)),
      ih (fun c hc => h c (List.mem_cons_of_mem x hc))]

theorem Split_append {front : List Char} (back : List Char) {delimiterValue : List Char}
    {c : Char} (h : ∀ x ∈ front, x ∉ delimiterValue) (hc : c ∈ delimiterValue) :
    Split (front ++ c :: back) delimiterValue = front :: Split back delimiterValue := by
  induction front with
  | nil => rw [List.nil_append, Split, if_pos hc]
  | cons x xs ih =>
    rw [List.cons_append, Split, if_neg (h x (List.mem_cons_self x xs)),
      ih (fun y hy => h y (List.mem_cons_of_mem x hy))]

/-! ## Facts about the numeric conversions -/

theorem digitsValue_append_singleton (ds : List Char) (c : Char) :
    digitsValue (ds ++ [c]) = 10 * digitsValue ds + (c.toNat - 48) := by
  simp [digitsValue, List.foldl_append]

theorem natToStringAux_spec (fuel : Nat) :
    ∀ (n : Nat) (acc : List Char), n < fuel →
      ∃ ds, natToStringAux fuel n acc = ds ++ acc ∧ ds ≠ [] ∧
        (∀ c ∈ ds, isDigit c = true) ∧ digitsValue ds = n := by
  induction fuel with
  | zero => intro n acc h; omega
  | succ fuel ih =>
    intro n acc h
    rw [natToStringAux]
    by_cases hn : n < 10
    · rw [if_pos hn]
      refine ⟨[Char.ofNat (48 + n)], rfl, by simp, ?_, ?_⟩
      · intro c hc
        rw [List.mem_singleton] at hc
        rw [hc]
        exact (digit_ofNat hn).1
      · have := digitsValue_append_singleton [] (Char.ofNat (48 + n))
        rw [List.nil_append] at this
        rw [this, (digit_ofNat hn).2]
        simp [digitsValue]
    · rw [if_neg hn]
      have hlt : n % 10 < 10 := Nat.mod_lt _ (by decide)
      obtain ⟨ds, h1, h2, h3, h4⟩ :=
        ih (n / 10) (Char.ofNat (48 + n % 10) :: acc) (by omega)
      refine ⟨ds ++ [Char.ofNat (48 + n % 10)], ?_, by simp, ?_, ?_⟩
      · rw [h1, List.append_assoc]
        rfl
      · intro c hc
        rcases List.mem_append.1 hc with hc | hc
        · exact h3 c hc
        · rw [List.mem_singleton] at hc
          rw [hc]
          exact (digit_ofNat hlt).1
      · rw [digitsValue_append_singleton, h4, (digit_ofNat hlt).2]
        omega

/-- The decimal text of `n` is a non-empty run of digits whose value is `n`. -/
theorem natToString_spec (n : Nat) :
    natToString n ≠ [] ∧ (∀ c ∈ natToString n, isDigit c = true) ∧
      digitsValue (natToString n) = n := by
  obtain ⟨ds, h1, h2, h3, h4⟩ := natToStringAux_spec (n + 1) n [] (by omega)
  rw [List.append_nil] at h1
  unfold natToString
  rw [h1]
  exact ⟨h2, h3, h4⟩

theorem natToStringAux_head (fuel : Nat) :
    ∀ (n : Nat) (acc : List Char), n < fuel → 0 < n →
      (natToStringAux fuel n acc).head? ≠ some '0' := by
  induction fuel with
  | zero => intro n acc h; omega
  | succ fuel ih =>
    intro n acc h hpos
    rw [natToStringAux]
    by_cases hn : n < 10
    · rw [if_pos hn, List.head?_cons, ne_eq, Option.some.injEq]
      interval_cases n <;> decide
    · rw [if_neg hn]
      exact ih (n / 10) _ (by omega) (by omega)

/-- The decimal text of a positive number has no leading zero. -/
theorem natToString_head {n : Nat} (h : 0 < n) : (natToString n).head? ≠ some '0' :=
  natToStringAux_head (n + 1) n [] (by omega) h

theorem scanInteger_digits {ds : List Char} (h : ∀ c ∈ ds, isDigit c = true) :
    scanInteger ds = (false, ds) := by
  have htake : ds.takeWhile isDigit = ds := List.takeWhile_eq_self_iff.2 h
  cases ds with
  | nil => rfl
  | cons x xs =>
    have hx : isDigit x = true := h x (List.mem_cons_self x xs)
    have hdrop : (x :: xs).dropWhile isSpace = x :: xs := by
      rw [List.dropWhile_cons, isSpace_of_isDigit hx]
      rfl
    have h1 : x ≠ '-' := ne_of_isDigit hx (by decide)
    have h2 : x ≠ '+' := ne_of_isDigit hx (by decide)
    unfold scanInteger
    simp only [hdrop, List.head?_cons, Option.some.injEq, h1, h2, if_false, htake]

theorem stoi_digits {ds : List Char} (hne : ds ≠ []) (h : ∀ c ∈ ds, isDigit c = true)
    (hmax : digitsValue ds ≤ 2147483647) : stoi ds = Except.ok (digitsValue ds : Int) := by
  unfold stoi
  simp only [scanInteger_digits h, hne, if_false]
  rw [if_neg]
  · rfl
  · simp only [Bool.false_eq_true, if_false]
    omega

theorem stoul_digits (ULONG_MAX : Nat) {ds : List Char} (hne : ds ≠ [])
    (h : ∀ c ∈ ds, isDigit c = true) (hmax : digitsValue ds ≤ ULONG_MAX) :
    stoul ULONG_MAX ds = Except.ok (digitsValue ds) := by
  unfold stoul
  simp only [scanInteger_digits h, hne, if_false]
  rw [if_neg (by omega)]
  rfl

/-- A string without a minus sign is never read as a negative number. -/
theorem stoi_nonneg {str : List Char} {i : Int} (hdash : '-' ∉ str)
    (h : stoi str = Except.ok i) : 0 ≤ i := by
  have hsign : (scanInteger str).1 = false := by
    unfold scanInteger
    have hhead : (str.dropWhile isSpace).head? ≠ some '-' := by
      intro hh
      have hmem : '-' ∈ str.dropWhile isSpace := List.mem_of_mem_head? hh
      exact hdash ((List.dropWhile_sublist isSpace).subset hmem)
    simp only [hhead, if_false]
    split <;> rfl
  unfold stoi at h
  simp only [hsign, Bool.false_eq_true, if_false] at h
  split at h
  · cases h
  · split at h
    · cases h
    · cases h
      exact Int.natCast_nonneg _

/-! ## Facts about the signal-reference constructor -/

theorem SignalKindAcronym_chars (k : SignalKind) :
    (SignalKindAcronym k).length = 2 ∧
      ∀ c ∈ SignalKindAcronym k, isSpace c = false ∧ c ≠ '-' ∧ toupper c = c := by
  cases k <;> decide

theorem mem_Trim {value : List Char} {c : Char} (h : c ∈ Trim value) : c ∈ value := by
  unfold Trim at h
  rw [List.mem_reverse] at h
  have h1 := (List.dropWhile_sublist isSpace).subset h
  rw [List.mem_reverse] at h1
  exact (List.dropWhile_sublist isSpace).subset h1

theorem dash_not_mem_ToUpper {value : List Char} (h : '-' ∉ value) :
    '-' ∉ ToUpper value := by
  unfold ToUpper
  intro hmem
  obtain ⟨c, hc, hcu⟩ := List.mem_map.1 hmem
  rw [toupper_eq_dash_iff] at hcu
  exact h (hcu ▸ hc)

theorem ToUpper_digits {ds : List Char} (h : ∀ c ∈ ds, isDigit c = true) :
    ToUpper ds = ds := by
  unfold ToUpper
  conv_rhs => rw [← List.map_id ds]
  exact List.map_congr_left (fun c hc => toupper_of_isDigit (h c hc))

/-- Characters whose upper-case form is a kind code are neither white space nor a dash. -/
theorem code_source_chars {code : List Char} {k : SignalKind}
    (h : ToUpper code = SignalKindAcronym k) :
    code.length = 2 ∧ ∀ c ∈ code, isSpace c = false ∧ c ≠ '-' := by
  obtain ⟨hlen, hch⟩ := SignalKindAcronym_chars k
  constructor
  · rw [← hlen, ← h]
    simp [ToUpper]
  · intro c hc
    have hmem : toupper c ∈ SignalKindAcronym k := by
      rw [← h]
      exact List.mem_map.2 ⟨c, hc, rfl⟩
    obtain ⟨h1, h2, _⟩ := hch _ hmem
    refine ⟨?_, ?_⟩
    · rw [← isSpace_toupper]
      exact h1
    · intro hd
      exact h2 ((toupper_eq_dash_iff c).2 hd)

/-- The constructor on `front-suffix` when the suffix has neither white space nor a dash:
the split is at the dash in front of the suffix and the suffix is not trimmed. -/
theorem construct_clean_suffix (front : List Char) {suffix : List Char}
    (h : ∀ c ∈ suffix, isSpace c = false ∧ c ≠ '-') :
    SignalReference.construct (front ++ '-' :: suffix) =
      if (ToUpper suffix).length > 2 then
        if ParseSignalKind ((ToUpper suffix).take 2) ≠ SignalKind.Unknown then
          match stoi ((ToUpper suffix).drop 2) with
          | Except.ok i =>
            Except.ok { Acronym := ToUpper (Trim front), Index := i,
                        Kind := ParseSignalKind ((ToUpper suffix).take 2) }
          | Except.error e => Except.error e
        else
          Except.ok { Acronym := ToUpper (Trim front), Index := 0,
                      Kind := ParseSignalKind ((ToUpper suffix).take 2) }
      else
        Except.ok { Acronym := ToUpper (Trim front), Index := 0,
                    Kind := ParseSignalKind (ToUpper suffix) } := by
  have hdash : '-' ∉ suffix := fun hmem => (h _ hmem).2 rfl
  have htrim : Trim suffix = suffix := Trim_eq_self (fun c hc => (h c hc).1)
  have hdrop : (front ++ '-' :: suffix).drop (front.length + 1) = suffix := by
    rw [← List.drop_drop, List.drop_left]
    rfl
  have htake : (front ++ '-' :: suffix).take front.length = front :=
    List.take_left _ _
  unfold SignalReference.construct
  rw [find_last_of_append front hdash]
  simp only [hdrop, htake, htrim]

theorem construct_indexed (front : List Char) {code ds : List Char} {k : SignalKind}
    (hcode : ToUpper code = SignalKindAcronym k) (hk : k ≠ SignalKind.Unknown)
    (hne : ds ≠ []) (hds : ∀ c ∈ ds, isDigit c = true)
    (hmax : digitsValue ds ≤ 2147483647) :
    SignalReference.construct (front ++ '-' :: (code ++ ds)) =
      Except.ok { Acronym := ToUpper (Trim front), Index := (digitsValue ds : Int),
                  Kind := k } := by
  obtain ⟨hlen, hch⟩ := code_source_chars hcode
  have hclean : ∀ c ∈ code ++ ds, isSpace c = false ∧ c ≠ '-' := by
    intro c hc
    rcases List.mem_append.1 hc with hc | hc
    · exact hch c hc
    · exact ⟨isSpace_of_isDigit (hds c hc), ne_of_isDigit (hds c hc) (by decide)⟩
  have hup : ToUpper (code ++ ds) = SignalKindAcronym k ++ ds := by
    have happ : ToUpper (code ++ ds) = ToUpper code ++ ToUpper ds := by
      simp [ToUpper]
    rw [happ, hcode, ToUpper_digits hds]
  have hlenk := (SignalKindAcronym_chars k).1
  have hdslen : 0 < ds.length := List.length_pos.2 hne
  have h2 : (SignalKindAcronym k ++ ds).take 2 = SignalKindAcronym k := by
    rw [← hlenk, List.take_left]
  have h3 : (SignalKindAcronym k ++ ds).drop 2 = ds := by
    rw [← hlenk, List.drop_left]
  have hparse : ParseSignalKind (SignalKindAcronym k) = k := by
    cases k <;> decide
  rw [construct_clean_suffix front hclean, hup, h2, h3, hparse,
    if_pos (by rw [List.length_append]; omega), if_pos hk, stoi_digits hne hds hmax]

theorem construct_plain (front : List Char) {code : List Char} {k : SignalKind}
    (hcode : ToUpper code = SignalKindAcronym k) :
    SignalReference.construct (front ++ '-' :: code) =
      Except.ok { Acronym := ToUpper (Trim front), Index := 0, Kind := k } := by
  obtain ⟨_, hch⟩ := code_source_chars hcode
  have hlenk := (SignalKindAcronym_chars k).1
  have hparse : ParseSignalKind (SignalKindAcronym k) = k := by
    cases k <;> decide
  rw [construct_clean_suffix front hch, hcode, hparse, if_neg (by omega)]

theorem construct_Index_nonneg {s : List Char} {r : SignalReference}
    (h : SignalReference.construct s = Except.ok r) : 0 ≤ r.Index := by
  unfold SignalReference.construct at h
  cases hfind : find_last_of s '-' with
  | none =>
    rw [hfind] at h
    simp only [Except.ok.injEq] at h
    rw [← h]
  | some i =>
    rw [hfind] at h
    simp only at h
    have hdash : '-' ∉ (ToUpper (Trim (s.drop (i + 1)))).drop 2 := by
      intro hmem
      have h1 := (List.drop_sublist 2 _).subset hmem
      exact dash_not_mem_ToUpper (fun hm => (find_last_of_eq_some hfind).2 (mem_Trim hm)) h1
    split at h
    · split at h
      · cases hsto : stoi ((ToUpper (Trim (s.drop (i + 1)))).drop 2) with
        | ok idx =>
          rw [hsto] at h
          simp only [Except.ok.injEq] at h
          rw [← h]
          exact stoi_nonneg hdash hsto
        | error e =>
          rw [hsto] at h
          cases h
      · simp only [Except.ok.injEq] at h
        rw [← h]
    · simp only [Except.ok.injEq] at h
      rw [← h]

theorem intToString_natCast (n : Nat) : intToString (n : Int) = natToString n := by
  unfold intToString
  rw [if_neg (by omega), Int.toNat_ofNat]

theorem toupper_eq_self {c : Char} (h : ¬ (97 ≤ c.toNat ∧ c.toNat ≤ 122)) :
    toupper c = c := by
  unfold toupper
  rw [if_neg h]

theorem toupper_toupper (c : Char) : toupper (toupper c) = toupper c := by
  have h := toNat_toupper c
  by_cases hc : 97 ≤ c.toNat ∧ c.toNat ≤ 122
  · rw [if_pos hc] at h
    exact toupper_eq_self (by rw [h]; omega)
  · rw [toupper_eq_self hc, toupper_eq_self hc]

theorem ToUpper_ToUpper (value : List Char) : ToUpper (ToUpper value) = ToUpper value := by
  unfold ToUpper
  rw [List.map_map]
  exact List.map_congr_left (fun c _ => toupper_toupper c)

theorem Trim_ToUpper (value : List Char) : Trim (ToUpper value) = ToUpper (Trim value) := by
  have hcomp : (isSpace ∘ toupper) = isSpace := funext isSpace_toupper
  unfold Trim ToUpper
  rw [List.dropWhile_map, hcomp, ← List.map_reverse, List.dropWhile_map, hcomp,
    List.map_reverse]

theorem dropWhile_eq_self_of_head {l : List Char}
    (h : ∀ c, l.head? = some c → isSpace c = false) : l.dropWhile isSpace = l := by
  cases l with
  | nil => rfl
  | cons x xs => rw [List.dropWhile_cons, h x rfl]; rfl

theorem Trim_Trim (value : List Char) : Trim (Trim value) = Trim value := by
  have hform : ∀ l : List Char, Trim l = List.rdropWhile isSpace (l.dropWhile isSpace) :=
    fun _ => rfl
  have hhead : ∀ c, (List.rdropWhile isSpace (value.dropWhile isSpace)).head? = some c →
      isSpace c = false := by
    intro c hc
    obtain ⟨t, ht⟩ := List.rdropWhile_prefix isSpace (l := value.dropWhile isSpace)
    have hnot := List.head?_dropWhile_not isSpace value
    rw [← ht] at hnot
    cases hz : List.rdropWhile isSpace (value.dropWhile isSpace) with
    | nil => rw [hz] at hc; cases hc
    | cons z zs =>
      rw [hz] at hc hnot
      simp only [List.head?_cons, Option.some.injEq] at hc
      simp only [List.cons_append, List.head?_cons] at hnot
      rw [← hc]
      exact hnot
  rw [hform (Trim value), hform value, dropWhile_eq_self_of_head hhead,
    List.rdropWhile_idempotent]

/-- Trimming and upper-casing an acronym that was produced by trimming and upper-casing
changes nothing. -/
theorem ToUpper_Trim_idempotent (value : List Char) :
    ToUpper (Trim (ToUpper (Trim value))) = ToUpper (Trim value) := by
  rw [Trim_ToUpper, Trim_Trim, ToUpper_ToUpper]

theorem find_last_of_isSome {s : List Char} {c : Char} (h : c ∈ s) :
    ∃ i, find_last_of s c = some i := by
  induction s with
  | nil => simp at h
  | cons x xs ih =>
    rw [find_last_of]
    cases hxs : find_last_of xs c with
    | some j => exact ⟨j + 1, rfl⟩
    | none =>
      rcases List.mem_cons.1 h with hx | hx
      · exact ⟨0, by simp [hx]⟩
      · obtain ⟨i, hi⟩ := ih hx
        rw [hxs] at hi
        cases hi

/-- Every string with a dash is a front, its last dash, and a back without a dash. -/
theorem exists_last_dash {s : List Char} (h : '-' ∈ s) :
    ∃ front back, s = front ++ '-' :: back ∧ '-' ∉ back := by
  obtain ⟨i, hi⟩ := find_last_of_isSome h
  exact ⟨s.take i, s.drop (i + 1), find_last_of_eq_some hi⟩

/-- The text in front of the last dash reaches the result through the Acronym only. -/
theorem construct_split (front : List Char) {back : List Char} (h : '-' ∉ back) :
    SignalReference.construct (front ++ '-' :: back) =
      Except.map (fun r => { r with Acronym := ToUpper (Trim front) })
        (SignalReference.construct ('-' :: back)) := by
  have h0 : find_last_of ('-' :: back) '-' = some 0 := find_last_of_append [] h
  have hdrop : (front ++ '-' :: back).drop (front.length + 1) = back := by
    rw [← List.drop_drop, List.drop_left]
    rfl
  have htake : (front ++ '-' :: back).take front.length = front := List.take_left _ _
  unfold SignalReference.construct
  rw [find_last_of_append front h, h0]
  simp only [hdrop, htake, List.drop_succ_cons, List.drop_zero, Nat.zero_add]
  split
  · split
    · cases stoi ((ToUpper (Trim back)).drop 2) <;> rfl
    · rfl
  · rfl

theorem stoi_le {str : List Char} {i : Int} (h : stoi str = Except.ok i) :
    i ≤ 2147483647 := by
  unfold stoi at h
  dsimp only at h
  split_ifs at h with h1 h2 h3 h4 <;> simp only [Except.ok.injEq] at h <;> omega

/-- What holds of every reference the constructor returns: the acronym is trimmed and
upper-cased, the index lies in `0 .. INT_MAX`, and an Unknown kind has the index 0. -/
theorem construct_wellformed {s : List Char} {r : SignalReference}
    (h : SignalReference.construct s = Except.ok r) :
    ToUpper (Trim r.Acronym) = r.Acronym ∧ 0 ≤ r.Index ∧ r.Index ≤ 2147483647 ∧
      (r.Kind = SignalKind.Unknown → r.Index = 0) := by
  refine ⟨?_, construct_Index_nonneg h, ?_⟩
  · unfold SignalReference.construct at h
    cases hfind : find_last_of s '-' with
    | none =>
      rw [hfind] at h
      simp only [Except.ok.injEq] at h
      rw [← h]
      exact ToUpper_Trim_idempotent s
    | some i =>
      rw [hfind] at h
      simp only at h
      split at h
      · split at h
        · cases hsto : stoi ((ToUpper (Trim (s.drop (i + 1)))).drop 2) with
          | ok idx =>
            rw [hsto] at h
            simp only [Except.ok.injEq] at h
            rw [← h]
            exact ToUpper_Trim_idempotent _
          | error e =>
            rw [hsto] at h
            cases h
        · simp only [Except.ok.injEq] at h
          rw [← h]
          exact ToUpper_Trim_idempotent _
      · simp only [Except.ok.injEq] at h
        rw [← h]
        exact ToUpper_Trim_idempotent _
  · unfold SignalReference.construct at h
    cases hfind : find_last_of s '-' with
    | none =>
      rw [hfind] at h
      simp only [Except.ok.injEq] at h
      rw [← h]
      exact ⟨by norm_num, fun _ => rfl⟩
    | some i =>
      rw [hfind] at h
      simp only at h
      split at h
      · split at h
        · rename_i hlen hkind
          cases hsto : stoi ((ToUpper (Trim (s.drop (i + 1)))).drop 2) with
          | ok idx =>
            rw [hsto] at h
            simp only [Except.ok.injEq] at h
            rw [← h]
            exact ⟨stoi_le hsto, fun hk => absurd hk hkind⟩
          | error e =>
            rw [hsto] at h
            cases h
        · simp only [Except.ok.injEq] at h
          rw [← h]
          exact ⟨by norm_num, fun _ => rfl⟩
      · simp only [Except.ok.injEq] at h
        rw [← h]
        exact ⟨by norm_num, fun _ => rfl⟩

theorem ToUpper_SignalKindAcronym (k : SignalKind) :
    ToUpper (SignalKindAcronym k) = SignalKindAcronym k := by
  cases k <;> decide

/-- Constructing from the formatted text of a well-formed reference gives it back. -/
theorem construct_ToString {r : SignalReference}
    (hacr : ToUpper (Trim r.Acronym) = r.Acronym) (h0 : 0 ≤ r.Index)
    (hmax : r.Index ≤ 2147483647) (hk : r.Kind = SignalKind.Unknown → r.Index = 0) :
    SignalReference.construct r.ToString = Except.ok r := by
  obtain ⟨acr, idx, kind⟩ := r
  simp only at hacr h0 hmax hk
  unfold SignalReference.ToString
  simp only
  by_cases hidx : idx > 0
  · have hkind : kind ≠ SignalKind.Unknown := fun hu => by
      have := hk hu
      omega
    obtain ⟨hne, hds, hval⟩ := natToString_spec idx.toNat
    have hcast : (idx.toNat : Int) = idx := Int.toNat_of_nonneg h0
    have hint : intToString idx = natToString idx.toNat := by
      unfold intToString
      rw [if_neg (by omega)]
    rw [if_pos hidx, hint, List.append_assoc, List.append_assoc, List.singleton_append,
      construct_indexed acr (ToUpper_SignalKindAcronym kind) hkind hne hds
        (by rw [hval]; omega),
      hval, hcast, hacr]
  · have hzero : idx = 0 := by omega
    rw [if_neg hidx, List.append_assoc, List.singleton_append,
      construct_plain acr (ToUpper_SignalKindAcronym kind), hacr, hzero]

/-! ## Signal references: parsing and formatting -/

/-- C1: for an acronym `A` that is already upper-case and has no white space at its ends and
a kind `k` other than Unknown with code `XX`, formatting the reference constructed from
`A-XXn` gives back `A-XXn` for every positive `n` in the `int` range written in plain
decimal, and formatting the reference constructed from `A-XX` gives back `A-XX`. -/
theorem SignalReference_round_trip (A : List Char) (k : SignalKind)
    (hupper : ToUpper A = A) (htrim : Trim A = A) (hk : k ≠ SignalKind.Unknown) :
    (∀ n : Nat, 0 < n → n ≤ 2147483647 →
      Except.map SignalReference.ToString
          (SignalReference.construct (A ++ '-' :: (SignalKindAcronym k ++ natToString n))) =
        Except.ok (A ++ '-' :: (SignalKindAcronym k ++ natToString n))) ∧
    Except.map SignalReference.ToString
        (SignalReference.construct (A ++ '-' :: SignalKindAcronym k)) =
      Except.ok (A ++ '-' :: SignalKindAcronym k) := by
  have hcode : ToUpper (SignalKindAcronym k) = SignalKindAcronym k := by
    unfold ToUpper
    conv_rhs => rw [← List.map_id (SignalKindAcronym k)]
    exact List.map_congr_left (fun c hc => ((SignalKindAcronym_chars k).2 c hc).2.2)
  constructor
  · intro n hpos hmax
    obtain ⟨hne, hds, hval⟩ := natToString_spec n
    rw [construct_indexed A hcode hk hne hds (by rw [hval]; exact hmax), htrim, hupper, hval]
    have hidx : (0 : Int) < (n : Int) := by exact_mod_cast hpos
    simp only [Except.map, SignalReference.ToString, hidx, if_true, intToString_natCast]
    simp
  · rw [construct_plain A hcode, htrim, hupper]
    simp [Except.map, SignalReference.ToString]

/-- The round trip of C1 on the texts CORDOVA-PA2 and SHELBY-FQ. -/
theorem SignalReference_round_trip_witness :
    Except.map SignalReference.ToString
        (SignalReference.construct ['C', 'O', 'R', 'D', 'O', 'V', 'A', '-', 'P', 'A', '2']) =
      Except.ok ['C', 'O', 'R', 'D', 'O', 'V', 'A', '-', 'P', 'A', '2'] ∧
    Except.map SignalReference.ToString
        (SignalReference.construct ['S', 'H', 'E', 'L', 'B', 'Y', '-', 'F', 'Q']) =
      Except.ok ['S', 'H', 'E', 'L', 'B', 'Y', '-', 'F', 'Q'] :=
  ⟨(SignalReference_round_trip ['C', 'O', 'R', 'D', 'O', 'V', 'A'] SignalKind.Angle
      (by decide) (by decide) (by decide)).1 2 (by decide) (by decide),
   (SignalReference_round_trip ['S', 'H', 'E', 'L', 'B', 'Y'] SignalKind.Frequency
      (by decide) (by decide) (by decide)).2⟩

/-- C2: on a string `P-XXd`, where `XX` is one of the 11 known kind codes after
upper-casing and `d` is a non-empty run of decimal digits in the `int` range, the
constructor sets Acronym to `ToUpper (Trim P)`, Kind to the kind of `XX` and Index to the
value of `d`; on `P-XX` it sets the same Acronym and Kind, with Index 0. -/
theorem SignalReference_construct_result (P XX : List Char) (k : SignalKind)
    (hcode : ToUpper XX = SignalKindAcronym k) (hk : k ≠ SignalKind.Unknown) :
    (∀ d : List Char, d ≠ [] → (∀ c ∈ d, isDigit c = true) → digitsValue d ≤ 2147483647 →
      SignalReference.construct (P ++ '-' :: (XX ++ d)) =
        Except.ok { Acronym := ToUpper (Trim P), Index := (digitsValue d : Int), Kind := k }) ∧
    SignalReference.construct (P ++ '-' :: XX) =
      Except.ok { Acronym := ToUpper (Trim P), Index := 0, Kind := k } :=
  ⟨fun _ hne hds hmax => construct_indexed P hcode hk hne hds hmax, construct_plain P hcode⟩

/-- The results of C2 on CORDOVA-PA2, which gives (CORDOVA, Angle, 2), and on SHELBY-FQ,
which gives (SHELBY, Frequency, 0). -/
theorem SignalReference_construct_result_witness :
    SignalReference.construct ['C', 'O', 'R', 'D', 'O', 'V', 'A', '-', 'P', 'A', '2'] =
      Except.ok { Acronym := ['C', 'O', 'R', 'D', 'O', 'V', 'A'], Index := 2,
                  Kind := SignalKind.Angle } ∧
    SignalReference.construct ['S', 'H', 'E', 'L', 'B', 'Y', '-', 'F', 'Q'] =
      Except.ok { Acronym := ['S', 'H', 'E', 'L', 'B', 'Y'], Index := 0,
                  Kind := SignalKind.Frequency } :=
  ⟨(SignalReference_construct_result ['C', 'O', 'R', 'D', 'O', 'V', 'A'] ['P', 'A']
      SignalKind.Angle (by decide) (by decide)).1 ['2'] (by decide) (by decide) (by decide),
   (SignalReference_construct_result ['S', 'H', 'E', 'L', 'B', 'Y'] ['F', 'Q']
      SignalKind.Frequency (by decide) (by decide)).2⟩

/-- C3: for every string from which the constructor succeeds, the formatter writes
Acronym, a dash, the kind code and then the decimal Index, and it leaves the index out
exactly when Index is 0; the index of a parsed reference is never negative, so no non-zero
index is dropped. -/
theorem SignalReference_ToString_of_construct (s : List Char) (r : SignalReference)
    (h : SignalReference.construct s = Except.ok r) :
    0 ≤ r.Index ∧
    (r.Index = 0 →
      r.ToString = r.Acronym ++ ['-'] ++ SignalKindAcronym r.Kind) ∧
    (r.Index ≠ 0 →
      r.ToString =
        r.Acronym ++ ['-'] ++ SignalKindAcronym r.Kind ++ natToString r.Index.toNat) := by
  have hnn : 0 ≤ r.Index := construct_Index_nonneg h
  refine ⟨hnn, ?_, ?_⟩
  · intro h0
    unfold SignalReference.ToString
    rw [if_neg (by omega)]
  · intro h0
    unfold SignalReference.ToString
    rw [if_pos (by omega)]
    unfold intToString
    rw [if_neg (by omega)]

/-- The format of C3 on the reference constructed from CORDOVA-PA2. -/
theorem SignalReference_ToString_of_construct_witness :
    SignalReference.construct ['C', 'O', 'R', 'D', 'O', 'V', 'A', '-', 'P', 'A', '2'] =
      Except.ok { Acronym := ['C', 'O', 'R', 'D', 'O', 'V', 'A'], Index := 2,
                  Kind := SignalKind.Angle } ∧
    SignalReference.ToString { Acronym := ['C', 'O', 'R', 'D', 'O', 'V', 'A'], Index := 2,
                               Kind := SignalKind.Angle } =
      ['C', 'O', 'R', 'D', 'O', 'V', 'A', '-', 'P', 'A', '2'] :=
  ⟨by decide,
   (SignalReference_ToString_of_construct
      ['C', 'O', 'R', 'D', 'O', 'V', 'A', '-', 'P', 'A', '2']
      { Acronym := ['C', 'O', 'R', 'D', 'O', 'V', 'A'], Index := 2, Kind := SignalKind.Angle }
      (by decide)).2.2 (by decide)⟩

/-! ## Measurement keys -/

/-- C4: for a source `S` without a colon and an unsigned 32-bit value `n` written in
decimal, `ParseMeasurementKey` on `S:n` sets source to `S` and id to `n`, whatever the
width of `unsigned long` (at least 32 bits). -/
theorem ParseMeasurementKey_two_parts (ULONG_MAX : Nat) (hULONG : 4294967295 ≤ ULONG_MAX)
    (S : List Char) (hS : ':' ∉ S) (n : Nat) (hn : n ≤ 4294967295) :
    ParseMeasurementKey ULONG_MAX (S ++ ':' :: natToString n) = Except.ok (S, n) := by
  obtain ⟨hne, hds, hval⟩ := natToString_spec n
  have hsplit : Split (S ++ ':' :: natToString n) [':'] = [S, natToString n] := by
    rw [Split_append _ (fun x hx => by
        rw [List.mem_singleton]
        rintro rfl
        exact hS hx) (List.mem_singleton.2 rfl),
      Split_of_not_mem (fun c hc => by
        rw [List.mem_singleton]
        exact ne_of_isDigit (hds c hc) (by decide))]
  unfold ParseMeasurementKey
  simp only [hsplit, List.length_cons, List.length_nil, List.getD_cons_zero,
    List.getD_cons_succ, if_true]
  rw [stoul_digits ULONG_MAX hne hds (by omega), hval]
  simp only
  rw [Nat.mod_eq_of_lt (by omega)]

/-- The result of C4 on the key PPA:1234 with a 64-bit `unsigned long`. -/
theorem ParseMeasurementKey_two_parts_witness :
    ParseMeasurementKey 18446744073709551615 ['P', 'P', 'A', ':', '1', '2', '3', '4'] =
      Except.ok (['P', 'P', 'A'], 1234) :=
  ParseMeasurementKey_two_parts 18446744073709551615 (by decide) ['P', 'P', 'A']
    (by decide) 1234 (by decide)

/-- C5: for a non-empty key `S` without a colon, `ParseMeasurementKey` does not fail and
sets source to `S` and id to 0xFFFFFFFF. -/
theorem ParseMeasurementKey_missing_id (ULONG_MAX : Nat) (S : List Char) (_hne : S ≠ [])
    (hS : ':' ∉ S) :
    ParseMeasurementKey ULONG_MAX S = Except.ok (S, UInt32.MaxValue) ∧
      UInt32.MaxValue = 0xFFFFFFFF := by
  have hsplit : Split S [':'] = [S] :=
    Split_of_not_mem (fun c hc => by
      rw [List.mem_singleton]
      rintro rfl
      exact hS hc)
  refine ⟨?_, rfl⟩
  unfold ParseMeasurementKey
  simp [hsplit]

/-- The result of C5 on the key PPA with a 64-bit `unsigned long`. -/
theorem ParseMeasurementKey_missing_id_witness :
    ParseMeasurementKey 18446744073709551615 ['P', 'P', 'A'] =
      Except.ok (['P', 'P', 'A'], 0xFFFFFFFF) :=
  (ParseMeasurementKey_missing_id 18446744073709551615 ['P', 'P', 'A'] (by decide)
    (by decide)).1

/-! ## Signal kinds -/

/-- C6: for each of the 12 signal kinds `k`, `ParseSignalKind (SignalKindAcronym k) = k`,
and the codes are PA, PM, FQ, DF, SF, DV, AV, CV, ST, AL, QF and ?? in declaration order. -/
theorem ParseSignalKind_SignalKindAcronym :
    (∀ k : SignalKind, ParseSignalKind (SignalKindAcronym k) = k) ∧
    [SignalKind.Angle, SignalKind.Magnitude, SignalKind.Frequency, SignalKind.DfDt,
      SignalKind.Status, SignalKind.Digital, SignalKind.Analog, SignalKind.Calculation,
      SignalKind.Statistic, SignalKind.Alarm, SignalKind.Quality,
      SignalKind.Unknown].map SignalKindAcronym =
    [['P', 'A'], ['P', 'M'], ['F', 'Q'], ['D', 'F'], ['S', 'F'], ['D', 'V'], ['A', 'V'],
      ['C', 'V'], ['S', 'T'], ['A', 'L'], ['Q', 'F'], ['?', '?']] := by
  refine ⟨fun k => ?_, rfl⟩
  cases k <;> decide

/-- C7: `ParseSignalKind a` is a kind other than `Unknown` exactly when `a` is one of the
11 two-letter upper-case codes; lower-case variants, longer or shorter strings, the empty
string and `??` give `Unknown`. -/
theorem ParseSignalKind_ne_Unknown_iff :
    (∀ a : List Char, ParseSignalKind a ≠ SignalKind.Unknown ↔
      (a = ['P', 'A'] ∨ a = ['P', 'M'] ∨ a = ['F', 'Q'] ∨ a = ['D', 'F'] ∨ a = ['S', 'F'] ∨
        a = ['D', 'V'] ∨ a = ['A', 'V'] ∨ a = ['C', 'V'] ∨ a = ['S', 'T'] ∨ a = ['A', 'L'] ∨
        a = ['Q', 'F'])) ∧
    ParseSignalKind ['p', 'a'] = SignalKind.Unknown ∧
    ParseSignalKind ['P', 'A', '2'] = SignalKind.Unknown ∧
    ParseSignalKind ['P'] = SignalKind.Unknown ∧
    ParseSignalKind [] = SignalKind.Unknown ∧
    ParseSignalKind ['?', '?'] = SignalKind.Unknown := by
  refine ⟨fun a => ?_, by decide, by decide, by decide, by decide, by decide⟩
  unfold ParseSignalKind
  constructor
  · intro h
    by_contra hne
    simp only [not_or] at hne
    obtain ⟨h1, h2, h3, h4, h5, h6, h7, h8, h9, h10, h11⟩ := hne
    simp only [h1, h2, h3, h4, h5, h6, h7, h8, h9, h10, h11, if_false] at h
    exact h rfl
  · intro h
    rcases h with h | h | h | h | h | h | h | h | h | h | h <;> subst h <;> decide

/-! ## Classification tables -/

/-- C8: `GetSignalTypeAcronym` maps Angle and Magnitude to VPHA and VPHM for phasor type
`V` and to IPHA and IPHM for phasor type `I`, and for every phasor type maps Frequency to
FREQ, DfDt to DFDT, Status to FLAG, Digital to DIGI, Analog to ALOG, Calculation to CALC,
Statistic to STAT, Alarm to ALRM, Quality to QUAL and Unknown to NULL. -/
theorem GetSignalTypeAcronym_table :
    GetSignalTypeAcronym SignalKind.Angle 'V' = ['V', 'P', 'H', 'A'] ∧
    GetSignalTypeAcronym SignalKind.Magnitude 'V' = ['V', 'P', 'H', 'M'] ∧
    GetSignalTypeAcronym SignalKind.Angle 'I' = ['I', 'P', 'H', 'A'] ∧
    GetSignalTypeAcronym SignalKind.Magnitude 'I' = ['I', 'P', 'H', 'M'] ∧
    ∀ phasorType : Char,
      GetSignalTypeAcronym SignalKind.Frequency phasorType = ['F', 'R', 'E', 'Q'] ∧
      GetSignalTypeAcronym SignalKind.DfDt phasorType = ['D', 'F', 'D', 'T'] ∧
      GetSignalTypeAcronym SignalKind.Status phasorType = ['F', 'L', 'A', 'G'] ∧
      GetSignalTypeAcronym SignalKind.Digital phasorType = ['D', 'I', 'G', 'I'] ∧
      GetSignalTypeAcronym SignalKind.Analog phasorType = ['A', 'L', 'O', 'G'] ∧
      GetSignalTypeAcronym SignalKind.Calculation phasorType = ['C', 'A', 'L', 'C'] ∧
      GetSignalTypeAcronym SignalKind.Statistic phasorType = ['S', 'T', 'A', 'T'] ∧
      GetSignalTypeAcronym SignalKind.Alarm phasorType = ['A', 'L', 'R', 'M'] ∧
      GetSignalTypeAcronym SignalKind.Quality phasorType = ['Q', 'U', 'A', 'L'] ∧
      GetSignalTypeAcronym SignalKind.Unknown phasorType = ['N', 'U', 'L', 'L'] := by
  refine ⟨by decide, by decide, by decide, by decide, fun phasorType => ?_⟩
  exact ⟨rfl, rfl, rfl, rfl, rfl, rfl, rfl, rfl, rfl, rfl⟩

/-- C9: `GetEngineeringUnits t` is Amps when `t` equals IPHM, Volts when `t` equals VPHM,
Hz when `t` equals FREQ, Degrees when `t` ends with PHA, and the empty string in every other
case. -/
theorem GetEngineeringUnits_cases (t : List Char) :
    (t = ['I', 'P', 'H', 'M'] → GetEngineeringUnits t = ['A', 'm', 'p', 's']) ∧
    (t = ['V', 'P', 'H', 'M'] → GetEngineeringUnits t = ['V', 'o', 'l', 't', 's']) ∧
    (t = ['F', 'R', 'E', 'Q'] → GetEngineeringUnits t = ['H', 'z']) ∧
    ((∃ front, t = front ++ ['P', 'H', 'A']) →
      GetEngineeringUnits t = ['D', 'e', 'g', 'r', 'e', 'e', 's']) ∧
    (t ≠ ['I', 'P', 'H', 'M'] → t ≠ ['V', 'P', 'H', 'M'] → t ≠ ['F', 'R', 'E', 'Q'] →
      (¬ ∃ front, t = front ++ ['P', 'H', 'A']) → GetEngineeringUnits t = []) := by
  refine ⟨?_, ?_, ?_, ?_, ?_⟩
  · rintro rfl; decide
  · rintro rfl; decide
  · rintro rfl; decide
  · intro h
    have hEnds : EndsWith t ['P', 'H', 'A'] = true := (EndsWith_iff _ _).2 h
    obtain ⟨front, rfl⟩ := h
    have h1 : front ++ ['P', 'H', 'A'] ≠ ['I', 'P', 'H', 'M'] := by
      intro he
      have := congrArg List.getLast? he
      simp at this
    have h2 : front ++ ['P', 'H', 'A'] ≠ ['V', 'P', 'H', 'M'] := by
      intro he
      have := congrArg List.getLast? he
      simp at this
    have h3 : front ++ ['P', 'H', 'A'] ≠ ['F', 'R', 'E', 'Q'] := by
      intro he
      have := congrArg List.getLast? he
      simp at this
    simp only [GetEngineeringUnits, IsEqual, h1, h2, h3, hEnds, decide_False, if_true]
    simp
  · intro h1 h2 h3 h4
    have hEnds : EndsWith t ['P', 'H', 'A'] = false := by
      rw [← Bool.not_eq_true, EndsWith_iff]
      exact h4
    simp [GetEngineeringUnits, IsEqual, h1, h2, h3, hEnds, Empty.String]

/-- The table of C9 read at the signal type IPHA, which ends with PHA. -/
theorem GetEngineeringUnits_cases_witness :
    GetEngineeringUnits ['I', 'P', 'H', 'A'] = ['D', 'e', 'g', 'r', 'e', 'e', 's'] :=
  (GetEngineeringUnits_cases ['I', 'P', 'H', 'A']).2.2.2.1 ⟨['I'], rfl⟩

/-- C10: `GetProtocolType p` is Measurement exactly when `p` begins with Gateway, Modbus or
DNP, it is Frame otherwise, and it is always one of these two strings. -/
theorem GetProtocolType_classification (p : List Char) :
    (GetProtocolType p = ['M', 'e', 'a', 's', 'u', 'r', 'e', 'm', 'e', 'n', 't'] ↔
      ((∃ rest, p = ['G', 'a', 't', 'e', 'w', 'a', 'y'] ++ rest) ∨
        (∃ rest, p = ['M', 'o', 'd', 'b', 'u', 's'] ++ rest) ∨
        (∃ rest, p = ['D', 'N', 'P'] ++ rest))) ∧
    (GetProtocolType p ≠ ['M', 'e', 'a', 's', 'u', 'r', 'e', 'm', 'e', 'n', 't'] →
      GetProtocolType p = ['F', 'r', 'a', 'm', 'e']) ∧
    (GetProtocolType p = ['M', 'e', 'a', 's', 'u', 'r', 'e', 'm', 'e', 'n', 't'] ∨
      GetProtocolType p = ['F', 'r', 'a', 'm', 'e']) := by
  have key : (StartsWith p ['G', 'a', 't', 'e', 'w', 'a', 'y'] ||
      StartsWith p ['M', 'o', 'd', 'b', 'u', 's'] || StartsWith p ['D', 'N', 'P']) = true ↔
      ((∃ rest, p = ['G', 'a', 't', 'e', 'w', 'a', 'y'] ++ rest) ∨
        (∃ rest, p = ['M', 'o', 'd', 'b', 'u', 's'] ++ rest) ∨
        (∃ rest, p = ['D', 'N', 'P'] ++ rest)) := by
    rw [Bool.or_eq_true, Bool.or_eq_true, StartsWith_iff, StartsWith_iff, StartsWith_iff,
      or_assoc]
  unfold GetProtocolType
  by_cases h : (StartsWith p ['G', 'a', 't', 'e', 'w', 'a', 'y'] ||
      StartsWith p ['M', 'o', 'd', 'b', 'u', 's'] || StartsWith p ['D', 'N', 'P']) = true
  · rw [if_pos h]
    exact ⟨⟨fun _ => key.1 h, fun _ => rfl⟩, fun hne => absurd rfl hne, Or.inl rfl⟩
  · rw [if_neg h]
    refine ⟨⟨fun he => absurd he (by decide), fun hr => absurd (key.2 hr) h⟩,
      fun _ => rfl, Or.inr rfl⟩

/-! ## Timestamps -/

/-- C12, the scenario as the specification gives it: for ticks = 634027392000000000 the
conversion does not yield unixSOC = 1325376000 with milliseconds = 0. -/
theorem ToUnixTime_scenario_fails :
    ¬ (ToUnixTime 634027392000000000 = (1325376000, 0)) := by
  decide

/-- C12, amended: `ToUnixTime` (and `Measurement::GetUnixTime`, which hands it the
measurement's Timestamp) computes unixSOC = (ticks - 621355968000000000) / 10,000,000 and
milliseconds = remainder / 10,000; for ticks = 634027392000000000 this is unixSOC =
1267142400 and milliseconds = 0, and unixSOC = 1325376000 is reached at ticks =
634609728000000000. -/
theorem ToUnixTime_formula :
    (∀ ticks : Int,
      (ToUnixTime ticks).1 = Int.tdiv (ticks - 621355968000000000) 10000000 ∧
      (ToUnixTime ticks).2 =
        Int.tdiv (Int.tmod (ticks - 621355968000000000) 10000000) 10000) ∧
    (∀ m : Measurement, m.GetUnixTime = ToUnixTime m.Timestamp) ∧
    ToUnixTime 634027392000000000 = (1267142400, 0) ∧
    ToUnixTime 634609728000000000 = (1325376000, 0) := by
  refine ⟨fun ticks => ⟨rfl, rfl⟩, fun m => rfl, by decide, by decide⟩

/-! ## Guids -/

/-- C13: for every 16-byte Guid and both values of `useGEPEncoding`, applying
`SwapGuidEndianness` twice gives the Guid back, one application moving byte
`{3,2,1,0,5,4,7,6,8,...,15}[i]` to position `i`. -/
theorem SwapGuidEndianness_involution (g : Guid) (useGEPEncoding : Bool) :
    SwapGuidEndianness (SwapGuidEndianness g useGEPEncoding) useGEPEncoding = g ∧
    (List.finRange 16).map (SwapGuidEndianness g useGEPEncoding) =
      [g 3, g 2, g 1, g 0, g 5, g 4, g 7, g 6, g 8, g 9, g 10, g 11, g 12, g 13, g 14,
        g 15] := by
  constructor
  · funext i
    fin_cases i <;> rfl
  · rfl

/-! ## Exceptions -/

theorem cString_eq_self {data : List Char} (h : Char.ofNat 0 ∉ data) :
    cString data = data := by
  unfold cString
  rw [List.takeWhile_eq_self_iff]
  intro c hc
  rw [bne_iff_ne]
  rintro rfl
  exact h hc

/-- C14: for a message without an embedded NUL, `what()` of a `SubscriberException` or a
`PublisherException` constructed from it returns exactly the message; `what()` is a
function of the exception alone, so every call returns this text. -/
theorem exception_what_message (msg : List Char) (h : Char.ofNat 0 ∉ msg) :
    (SubscriberException.construct msg).what = msg ∧
    (PublisherException.construct msg).what = msg :=
  ⟨cString_eq_self h, cString_eq_self h⟩

/-- The message of C14 on the text `lost`. -/
theorem exception_what_message_witness :
    (SubscriberException.construct ['l', 'o', 's', 't']).what = ['l', 'o', 's', 't'] ∧
    (PublisherException.construct ['l', 'o', 's', 't']).what = ['l', 'o', 's', 't'] :=
  exception_what_message ['l', 'o', 's', 't'] (by decide)

/-! ## Cipher keys -/

/-- C15: after `SetCipherKeyRotationPeriod(p)` the period returned by
`GetCipherKeyRotationPeriod()` is `p` clamped into [1000, 86400000]: 1000 when `p < 1000`,
86400000 when `p > 86400000`, and `p` otherwise. -/
theorem CipherKeyRotationPeriod_clamped (publisher : DataPublisher) (p : Nat) :
    (publisher.SetCipherKeyRotationPeriod p).GetCipherKeyRotationPeriod =
      (if p < 1000 then 1000 else if 86400000 < p then 86400000 else p) ∧
    1000 ≤ (publisher.SetCipherKeyRotationPeriod p).GetCipherKeyRotationPeriod ∧
    (publisher.SetCipherKeyRotationPeriod p).GetCipherKeyRotationPeriod ≤ 86400000 := by
  simp only [DataPublisher.SetCipherKeyRotationPeriod,
    DataPublisher.GetCipherKeyRotationPeriod]
  refine ⟨?_, ?_, ?_⟩
  · split_ifs <;> omega
  · omega
  · omega

/-- C16: with current cipher index `i`, handling RotateCipherKeys puts the new key and iv
into slot `1 - i`, leaves the key and iv of slot `i` as they were, and sets the cipher
index to `1 - i`, which differs from `i`. -/
theorem HandleRotateCipherKeys_inactive_slot (connection : SubscriberConnection)
    (key iv : List (Fin 256)) :
    (connection.HandleRotateCipherKeys key iv).m_keys (1 - connection.cipherIndex) = key ∧
    (connection.HandleRotateCipherKeys key iv).m_ivs (1 - connection.cipherIndex) = iv ∧
    (connection.HandleRotateCipherKeys key iv).m_keys connection.cipherIndex =
      connection.m_keys connection.cipherIndex ∧
    (connection.HandleRotateCipherKeys key iv).m_ivs connection.cipherIndex =
      connection.m_ivs connection.cipherIndex ∧
    (connection.HandleRotateCipherKeys key iv).cipherIndex = 1 - connection.cipherIndex ∧
    (connection.HandleRotateCipherKeys key iv).cipherIndex ≠ connection.cipherIndex := by
  have hne : ∀ i : Fin 2, i ≠ 1 - i := by decide
  simp only [SubscriberConnection.HandleRotateCipherKeys, if_true]
  refine ⟨trivial, trivial, ?_, ?_, trivial, ?_⟩
  · rw [if_neg (hne _)]
  · rw [if_neg (hne _)]
  · exact fun h => hne _ h.symm

/-! ## Signal references: the last dash and the normal form -/

/-- C17: every string with a dash is a front, its last dash and a back without a dash; the
constructor then takes Acronym = ToUpper (Trim front), and Kind and Index (or the failure)
come from the back alone: with any other front the result differs in the Acronym only. So
earlier dashes stay inside the acronym. -/
theorem SignalReference_last_dash :
    (∀ s : List Char, '-' ∈ s → ∃ front back, s = front ++ '-' :: back ∧ '-' ∉ back) ∧
    (∀ front back : List Char, '-' ∉ back →
      (∀ r, SignalReference.construct (front ++ '-' :: back) = Except.ok r →
        r.Acronym = ToUpper (Trim front)) ∧
      (∀ other : List Char,
        SignalReference.construct (other ++ '-' :: back) =
          Except.map (fun r => { r with Acronym := ToUpper (Trim other) })
            (SignalReference.construct (front ++ '-' :: back)))) := by
  refine ⟨fun s h => exists_last_dash h, fun front back h => ⟨?_, ?_⟩⟩
  · intro r hr
    rw [construct_split front h] at hr
    cases hc : SignalReference.construct ('-' :: back) with
    | error e =>
      rw [hc] at hr
      cases hr
    | ok r0 =>
      rw [hc] at hr
      simp only [Except.map, Except.ok.injEq] at hr
      rw [← hr]
  · intro other
    rw [construct_split other h, construct_split front h]
    cases SignalReference.construct ('-' :: back) <;> rfl

/-- The split of C17 on the text A-B-PA2: the acronym is A-B, the kind Angle and the index
2, and the front X in place of A-B changes the acronym only. -/
theorem SignalReference_last_dash_witness :
    SignalReference.construct ['A', '-', 'B', '-', 'P', 'A', '2'] =
      Except.ok { Acronym := ['A', '-', 'B'], Index := 2, Kind := SignalKind.Angle } ∧
    SignalReference.construct ['X', '-', 'P', 'A', '2'] =
      Except.map (fun r => { r with Acronym := ToUpper (Trim ['X']) })
        (SignalReference.construct ['A', '-', 'B', '-', 'P', 'A', '2']) :=
  ⟨by decide,
   (SignalReference_last_dash.2 ['A', '-', 'B'] ['P', 'A', '2'] (by decide)).2 ['X']⟩

/-- C18: a string without a dash is accepted: the constructor succeeds with Acronym =
ToUpper (Trim s), Kind = Unknown and Index = 0, and formatting that reference writes the
acronym followed by `-??`. -/
theorem SignalReference_without_dash (s : List Char) (h : '-' ∉ s) :
    SignalReference.construct s =
      Except.ok { Acronym := ToUpper (Trim s), Index := 0, Kind := SignalKind.Unknown } ∧
    Except.map SignalReference.ToString (SignalReference.construct s) =
      Except.ok (ToUpper (Trim s) ++ ['-', '?', '?']) := by
  have hc : SignalReference.construct s =
      Except.ok { Acronym := ToUpper (Trim s), Index := 0, Kind := SignalKind.Unknown } := by
    unfold SignalReference.construct
    rw [find_last_of_eq_none h]
  refine ⟨hc, ?_⟩
  rw [hc]
  simp [Except.map, SignalReference.ToString, SignalKindAcronym]

/-- The result of C18 on the text `shelby`. -/
theorem SignalReference_without_dash_witness :
    SignalReference.construct ['s', 'h', 'e', 'l', 'b', 'y'] =
      Except.ok { Acronym := ['S', 'H', 'E', 'L', 'B', 'Y'], Index := 0,
                  Kind := SignalKind.Unknown } ∧
    Except.map SignalReference.ToString
        (SignalReference.construct ['s', 'h', 'e', 'l', 'b', 'y']) =
      Except.ok ['S', 'H', 'E', 'L', 'B', 'Y', '-', '?', '?'] :=
  SignalReference_without_dash ['s', 'h', 'e', 'l', 'b', 'y'] (by decide)

/-- C19: for every string from which the constructor succeeds, Index is at least 0, and
Kind = Unknown implies Index = 0. -/
theorem SignalReference_invariant (s : List Char) (r : SignalReference)
    (h : SignalReference.construct s = Except.ok r) :
    0 ≤ r.Index ∧ (r.Kind = SignalKind.Unknown → r.Index = 0) :=
  ⟨(construct_wellformed h).2.1, (construct_wellformed h).2.2.2⟩

/-- The invariant of C19 on the text X-ZZ9, whose kind is Unknown. -/
theorem SignalReference_invariant_witness :
    SignalReference.construct ['X', '-', 'Z', 'Z', '9'] =
      Except.ok { Acronym := ['X'], Index := 0, Kind := SignalKind.Unknown } ∧
    (0 : Int) ≤ 0 ∧ (SignalKind.Unknown = SignalKind.Unknown → (0 : Int) = 0) :=
  ⟨by decide,
   SignalReference_invariant ['X', '-', 'Z', 'Z', '9']
     { Acronym := ['X'], Index := 0, Kind := SignalKind.Unknown } (by decide)⟩

/-- C20: if the constructor succeeds on `s` with the reference `r`, it succeeds on the
formatted text of `r` and gives `r` again: the same Acronym, Kind and Index. -/
theorem SignalReference_normal_form (s : List Char) (r : SignalReference)
    (h : SignalReference.construct s = Except.ok r) :
    SignalReference.construct r.ToString = Except.ok r := by
  obtain ⟨hacr, h0, hmax, hk⟩ := construct_wellformed h
  exact construct_ToString hacr h0 hmax hk

/-- The normal form of C20 on ` a-b - pa 7`, whose acronym holds a dash, and on `x-zz9`,
whose kind is Unknown. -/
theorem SignalReference_normal_form_witness :
    (SignalReference.construct [' ', 'a', '-', 'b', ' ', '-', ' ', 'p', 'a', ' ', '7'] =
        Except.ok { Acronym := ['A', '-', 'B'], Index := 7, Kind := SignalKind.Angle } ∧
      SignalReference.construct
          (SignalReference.ToString
            { Acronym := ['A', '-', 'B'], Index := 7, Kind := SignalKind.Angle }) =
        Except.ok { Acronym := ['A', '-', 'B'], Index := 7, Kind := SignalKind.Angle }) ∧
    SignalReference.construct
        (SignalReference.ToString
          { Acronym := ['X'], Index := 0, Kind := SignalKind.Unknown }) =
      Except.ok { Acronym := ['X'], Index := 0, Kind := SignalKind.Unknown } :=
  ⟨⟨by decide,
    SignalReference_normal_form [' ', 'a', '-', 'b', ' ', '-', ' ', 'p', 'a', ' ', '7']
      { Acronym := ['A', '-', 'B'], Index := 7, Kind := SignalKind.Angle } (by decide)⟩,
   SignalReference_normal_form ['x', '-', 'z', 'z', '9']
     { Acronym := ['X'], Index := 0, Kind := SignalKind.Unknown } (by decide)⟩

/-! ## Signal references: failure, letter case -/

theorem textAfterLastDash_append (front : List Char) {back : List Char} (h : '-' ∉ back) :
    textAfterLastDash (front ++ '-' :: back) = back := by
  have hall : ∀ c ∈ back.reverse, (c != '-') = true := by
    intro c hc
    rw [bne_iff_ne]
    rintro rfl
    exact h (List.mem_reverse.1 hc)
  unfold textAfterLastDash
  rw [List.reverse_append, List.reverse_cons, List.append_assoc,
    List.takeWhile_append_of_pos hall]
  simp

/-- The constructor on a string cut at its last dash. -/
theorem construct_at_last_dash (front : List Char) {back : List Char} (h : '-' ∉ back) :
    SignalReference.construct (front ++ '-' :: back) =
      if (ToUpper (Trim back)).length > 2 then
        if ParseSignalKind ((ToUpper (Trim back)).take 2) ≠ SignalKind.Unknown then
          match stoi ((ToUpper (Trim back)).drop 2) with
          | Except.ok i =>
            Except.ok { Acronym := ToUpper (Trim front), Index := i,
                        Kind := ParseSignalKind ((ToUpper (Trim back)).take 2) }
          | Except.error e => Except.error e
        else
          Except.ok { Acronym := ToUpper (Trim front), Index := 0,
                      Kind := ParseSignalKind ((ToUpper (Trim back)).take 2) }
      else
        Except.ok { Acronym := ToUpper (Trim front), Index := 0,
                    Kind := ParseSignalKind (ToUpper (Trim back)) } := by
  have hdrop : (front ++ '-' :: back).drop (front.length + 1) = back := by
    rw [← List.drop_drop, List.drop_left]
    rfl
  have htake : (front ++ '-' :: back).take front.length = front := List.take_left _ _
  unfold SignalReference.construct
  rw [find_last_of_append front h]
  simp only [hdrop, htake]

theorem scanInteger_of_no_dash {text : List Char} (h : '-' ∉ text) :
    scanInteger text = (false, (skipSpacesAndPlus text).takeWhile isDigit) := by
  have hhead : (text.dropWhile isSpace).head? ≠ some '-' := by
    intro hh
    exact h ((List.dropWhile_sublist isSpace).subset (List.mem_of_mem_head? hh))
  unfold scanInteger skipSpacesAndPlus
  simp only [hhead, if_false]
  split <;> rfl

/-- On a text without a minus sign `stoi` throws exactly when, behind the white space and
an optional plus sign, there is no run of digits with a value of at most `INT_MAX`. -/
theorem stoi_error_iff {text : List Char} (h : '-' ∉ text) :
    (∃ e, stoi text = Except.error e) ↔
      startsWithDecimalInt (skipSpacesAndPlus text) = false := by
  unfold stoi startsWithDecimalInt
  rw [scanInteger_of_no_dash h]
  simp only [Bool.false_eq_true, if_false, decide_eq_false_iff_not, not_and, not_le]
  by_cases hnil : (skipSpacesAndPlus text).takeWhile isDigit = []
  · rw [if_pos hnil]
    exact ⟨fun _ hne => absurd hnil hne, fun _ => ⟨_, rfl⟩⟩
  · rw [if_neg hnil]
    by_cases hbig : 2147483647 < digitsValue ((skipSpacesAndPlus text).takeWhile isDigit)
    · rw [if_pos (Or.inr (by exact_mod_cast hbig))]
      exact ⟨fun _ _ => hbig, fun _ => ⟨_, rfl⟩⟩
    · rw [if_neg (by
        intro hor
        rcases hor with hlt | hgt
        · omega
        · exact hbig (by exact_mod_cast hgt))]
      constructor
      · rintro ⟨e, he⟩
        cases he
      · intro hno
        exact absurd (hno hnil) hbig

/-- C21 as the specification states it, on the text `X-PA 5`: the text has a dash, the
trimmed upper-cased text `PA 5` after it is longer than 2 characters and begins with the
known code PA, and the remaining ` 5` does not start with a decimal integer; yet the
constructor does not throw (`stoi` skips the white space and Index becomes 5). The same
happens on `X-PA+5`. -/
theorem SignalReference_throws_as_stated_fails :
    ¬ ((∃ e, SignalReference.construct ['X', '-', 'P', 'A', ' ', '5'] = Except.error e) ↔
      ('-' ∈ ['X', '-', 'P', 'A', ' ', '5'] ∧
        2 < (signalTypeText ['X', '-', 'P', 'A', ' ', '5']).length ∧
        ParseSignalKind ((signalTypeText ['X', '-', 'P', 'A', ' ', '5']).take 2) ≠
          SignalKind.Unknown ∧
        startsWithDecimalInt ((signalTypeText ['X', '-', 'P', 'A', ' ', '5']).drop 2) =
          false)) ∧
    SignalReference.construct ['X', '-', 'P', 'A', ' ', '5'] =
      Except.ok { Acronym := ['X'], Index := 5, Kind := SignalKind.Angle } ∧
    SignalReference.construct ['X', '-', 'P', 'A', '+', '5'] =
      Except.ok { Acronym := ['X'], Index := 5, Kind := SignalKind.Angle } ∧
    startsWithDecimalInt ['+', '5'] = false := by
  refine ⟨?_, by decide, by decide, by decide⟩
  intro hiff
  obtain ⟨e, he⟩ := hiff.2 (by decide)
  have hok : SignalReference.construct ['X', '-', 'P', 'A', ' ', '5'] =
      Except.ok { Acronym := ['X'], Index := 5, Kind := SignalKind.Angle } := by decide
  rw [hok] at he
  cases he

/-- C21, amended: constructing a SignalReference from `s` throws if and only if `s` has a
dash, the trimmed upper-cased text after the last dash is longer than 2 characters, its
first two characters are one of the 11 known kind codes, and the remaining characters,
behind leading white space and an optional plus sign, do not start with a decimal integer
that fits in int. `X-PAabc` throws; `X-ZZabc`, `X-PA`, `X` and `X-PA 5` do not. -/
theorem SignalReference_construct_throws_iff :
    (∀ s : List Char,
      (∃ e, SignalReference.construct s = Except.error e) ↔
        ('-' ∈ s ∧ 2 < (signalTypeText s).length ∧
          ParseSignalKind ((signalTypeText s).take 2) ≠ SignalKind.Unknown ∧
          startsWithDecimalInt (skipSpacesAndPlus ((signalTypeText s).drop 2)) = false)) ∧
    SignalReference.construct ['X', '-', 'P', 'A', 'a', 'b', 'c'] =
      Except.error StoError.invalid_argument ∧
    SignalReference.construct ['X', '-', 'Z', 'Z', 'a', 'b', 'c'] =
      Except.ok { Acronym := ['X'], Index := 0, Kind := SignalKind.Unknown } ∧
    SignalReference.construct ['X', '-', 'P', 'A'] =
      Except.ok { Acronym := ['X'], Index := 0, Kind := SignalKind.Angle } ∧
    SignalReference.construct ['X'] =
      Except.ok { Acronym := ['X'], Index := 0, Kind := SignalKind.Unknown } ∧
    SignalReference.construct ['X', '-', 'P', 'A', ' ', '5'] =
      Except.ok { Acronym := ['X'], Index := 5, Kind := SignalKind.Angle } := by
  refine ⟨fun s => ?_, by decide, by decide, by decide, by decide, by decide⟩
  by_cases hd : '-' ∈ s
  · obtain ⟨front, back, rfl, hback⟩ := exists_last_dash hd
    have hrest : '-' ∉ (ToUpper (Trim back)).drop 2 := by
      intro hmem
      exact dash_not_mem_ToUpper (fun hm => hback (mem_Trim hm))
        ((List.drop_sublist 2 _).subset hmem)
    have hsto := stoi_error_iff hrest
    simp only [signalTypeText, textAfterLastDash_append front hback]
    rw [construct_at_last_dash front hback]
    by_cases hlen : (ToUpper (Trim back)).length > 2
    · rw [if_pos hlen]
      by_cases hkind : ParseSignalKind ((ToUpper (Trim back)).take 2) ≠ SignalKind.Unknown
      · rw [if_pos hkind]
        cases hres : stoi ((ToUpper (Trim back)).drop 2) with
        | error e =>
          have hcond := hsto.1 ⟨e, hres⟩
          exact ⟨fun _ => ⟨hd, hlen, hkind, hcond⟩, fun _ => ⟨e, rfl⟩⟩
        | ok i =>
          constructor
          · rintro ⟨e, he⟩
            cases he
          · rintro ⟨_, _, _, hcond⟩
            obtain ⟨e, he⟩ := hsto.2 hcond
            rw [hres] at he
            cases he
      · rw [if_neg hkind]
        constructor
        · rintro ⟨e, he⟩
          cases he
        · rintro ⟨_, _, hk, _⟩
          exact absurd hk hkind
    · rw [if_neg hlen]
      constructor
      · rintro ⟨e, he⟩
        cases he
      · rintro ⟨_, hl, _, _⟩
        exact absurd hl hlen
  · have hc : SignalReference.construct s =
        Except.ok { Acronym := ToUpper (Trim s), Index := 0, Kind := SignalKind.Unknown } := by
      unfold SignalReference.construct
      rw [find_last_of_eq_none hd]
    rw [hc]
    constructor
    · rintro ⟨e, he⟩
      cases he
    · rintro ⟨hmem, _⟩
      exact absurd hmem hd

theorem find_last_of_ToUpper (s : List Char) :
    find_last_of (ToUpper s) '-' = find_last_of s '-' := by
  induction s with
  | nil => rfl
  | cons x xs ih =>
    have ih2 : find_last_of (List.map toupper xs) '-' = find_last_of xs '-' := ih
    simp only [ToUpper, List.map_cons, find_last_of, ih2]
    cases find_last_of xs '-' with
    | some i => rfl
    | none =>
      simp only
      by_cases hx : x = '-'
      · rw [if_pos hx, if_pos ((toupper_eq_dash_iff x).2 hx)]
      · rw [if_neg hx, if_neg (fun hu => hx ((toupper_eq_dash_iff x).1 hu))]

theorem ToUpper_Trim_ToUpper (value : List Char) :
    ToUpper (Trim (ToUpper value)) = ToUpper (Trim value) := by
  rw [Trim_ToUpper, ToUpper_ToUpper]

/-- The constructor reads its argument through `ToUpper` only. -/
theorem construct_ToUpper (s : List Char) :
    SignalReference.construct (ToUpper s) = SignalReference.construct s := by
  have hdrop : ∀ n, (ToUpper s).drop n = ToUpper (s.drop n) := fun n => by
    simp [ToUpper, List.map_drop]
  have htake : ∀ n, (ToUpper s).take n = ToUpper (s.take n) := fun n => by
    simp [ToUpper, List.map_take]
  unfold SignalReference.construct
  rw [find_last_of_ToUpper]
  cases find_last_of s '-' with
  | none =>
    simp only
    rw [ToUpper_Trim_ToUpper]
  | some i =>
    simp only [hdrop, htake, ToUpper_Trim_ToUpper]

/-- C22: if `s` and `t` differ only in the case of ASCII letters, that is, if they have
the same upper-case form, then the constructor gives the same outcome on both: the same
failure, or the same Acronym, Kind and Index; `ParseSignalKind` itself tells `pa` from
`PA`. -/
theorem SignalReference_ignores_case (s t : List Char) (h : ToUpper s = ToUpper t) :
    SignalReference.construct s = SignalReference.construct t ∧
    ParseSignalKind ['p', 'a'] ≠ ParseSignalKind ['P', 'A'] := by
  refine ⟨?_, by decide⟩
  rw [← construct_ToUpper s, ← construct_ToUpper t, h]

/-- The constructor of C22 on `cordova-pa2` and `CORDOVA-PA2`: both give (CORDOVA, Angle,
2). -/
theorem SignalReference_ignores_case_witness :
    SignalReference.construct ['c', 'o', 'r', 'd', 'o', 'v', 'a', '-', 'p', 'a', '2'] =
      SignalReference.construct ['C', 'O', 'R', 'D', 'O', 'V', 'A', '-', 'P', 'A', '2'] ∧
    SignalReference.construct ['c', 'o', 'r', 'd', 'o', 'v', 'a', '-', 'p', 'a', '2'] =
      Except.ok { Acronym := ['C', 'O', 'R', 'D', 'O', 'V', 'A'], Index := 2,
                  Kind := SignalKind.Angle } :=
  ⟨(SignalReference_ignores_case
      ['c', 'o', 'r', 'd', 'o', 'v', 'a', '-', 'p', 'a', '2']
      ['C', 'O', 'R', 'D', 'O', 'V', 'A', '-', 'P', 'A', '2'] (by decide)).1,
   by decide⟩

/-! ## Measurement keys with several separators -/

theorem Split_length_pos (value delimiterValue : List Char) :
    0 < (Split value delimiterValue).length := by
  induction value with
  | nil => simp [Split]
  | cons x xs ih =>
    rw [Split]
    split
    · simp
    · split
      · simp
      · simp

/-- C23: a key that splits at `:` into three or more parts does not make
`ParseMeasurementKey` fail: source is the first part and id is 0xFFFFFFFF, whatever the
later parts are; in particular this holds of every key `first:second:rest` where `first`
and `second` have no colon. -/
theorem ParseMeasurementKey_three_parts (ULONG_MAX : Nat) :
    (∀ key : List Char, 3 ≤ (Split key [':']).length →
      ParseMeasurementKey ULONG_MAX key =
        Except.ok ((Split key [':']).getD 0 [], UInt32.MaxValue)) ∧
    (∀ first second rest : List Char, ':' ∉ first → ':' ∉ second →
      3 ≤ (Split (first ++ ':' :: (second ++ ':' :: rest)) [':']).length ∧
      ParseMeasurementKey ULONG_MAX (first ++ ':' :: (second ++ ':' :: rest)) =
        Except.ok (first, UInt32.MaxValue)) ∧
    UInt32.MaxValue = 0xFFFFFFFF ∧
    ParseMeasurementKey ULONG_MAX ['P', 'P', 'A', ':', '1', '2', ':', '3', '4'] =
      Except.ok (['P', 'P', 'A'], 0xFFFFFFFF) := by
  have hgen : ∀ key : List Char, 3 ≤ (Split key [':']).length →
      ParseMeasurementKey ULONG_MAX key =
        Except.ok ((Split key [':']).getD 0 [], UInt32.MaxValue) := by
    intro key hlen
    unfold ParseMeasurementKey
    simp only
    rw [if_neg (by omega)]
  have hsplit : ∀ first second rest : List Char, ':' ∉ first → ':' ∉ second →
      Split (first ++ ':' :: (second ++ ':' :: rest)) [':'] =
        first :: second :: Split rest [':'] := by
    intro first second rest h1 h2
    have hmem : ∀ {l : List Char}, ':' ∉ l → ∀ x ∈ l, x ∉ [':'] := by
      intro l hl x hx
      rw [List.mem_singleton]
      rintro rfl
      exact hl hx
    rw [Split_append _ (hmem h1) (List.mem_singleton.2 rfl),
      Split_append _ (hmem h2) (List.mem_singleton.2 rfl)]
  refine ⟨hgen, ?_, rfl, ?_⟩
  · intro first second rest h1 h2
    have hlen : 3 ≤ (Split (first ++ ':' :: (second ++ ':' :: rest)) [':']).length := by
      rw [hsplit first second rest h1 h2]
      have := Split_length_pos rest [':']
      simp only [List.length_cons]
      omega
    refine ⟨hlen, ?_⟩
    rw [hgen _ hlen, hsplit first second rest h1 h2]
    rfl
  · have h := hgen ['P', 'P', 'A', ':', '1', '2', ':', '3', '4'] (by decide)
    rw [h]
    rfl

end GSF
